import Mathlib

/-!
Shallow embedding of the FB_Hourly_Analysis metrics pipeline
(src/FB_Hourly_Analysis.py, lines 16-94).

Tables are lists of records; decimals are rationals; pandas NaN /
missing values are `Option`; a pandas operation that raises is a
function into `Option` returning `none`.
-/

namespace FB

/-- A raw revenue row: columns campid, hour, estimated_earnings, clicks. -/
structure RevenueRecord where
  campid : Int
  hour : Int
  estimated_earnings : ℚ
  clicks : ℚ
deriving DecidableEq, Repr

/-- A raw spend row: columns "Ad set name",
"Time of day (ad account time zone)", "Amount spent (USD)", "Results".
The two numeric columns may be missing (NaN). -/
structure SpendRecord where
  ad_set_name : String
  time_label : String
  amount_spent : Option ℚ
  results : Option ℚ
deriving DecidableEq, Repr

/-- A cleaned spend row (columns campid, hour, hourly_spend, hourly_results),
line 27-30 of the source. -/
structure CleanedSpend where
  campid : Int
  hour : Int
  hourly_spend : ℚ
  hourly_results : ℚ
deriving DecidableEq, Repr

/-- An aggregated revenue row (line 37-40). -/
structure AggRevenue where
  campid : Int
  hour : Int
  estimated_earnings : ℚ
  total_clicks : ℚ
deriving DecidableEq, Repr

/-- A merged row (line 49-54) after the campaign-name left join (line 59):
`campaign_name = none` models a NaN name for a campid absent from the mapping. -/
structure NamedRow where
  campid : Int
  hour : Int
  estimated_earnings : ℚ
  total_clicks : ℚ
  hourly_spend : ℚ
  hourly_results : ℚ
  campaign_name : Option String
deriving DecidableEq, Repr

/-- A fully derived output row, after metric derivation and rounding
(lines 61-94), in the final column order. -/
structure FinalRow where
  campid : Int
  campaign_name : Option String
  hour : Int
  hourly_spend : ℚ
  hourly_results : ℚ
  estimated_earnings : ℚ
  total_clicks : ℚ
  hourly_revenue : ℚ
  hourly_clicks : ℚ
  hourly_cpr : ℚ
  hourly_rpc : ℚ
  profit : ℚ
  roi : ℚ
  profit_loss : String
deriving DecidableEq, Repr

/-! ### Regex extraction (lines 25-26)

`str.extract(r'\((\d+)\)')` takes the leftmost substring `(digits)`;
`str.extract(r'(\d+):')` takes the leftmost maximal digit run directly
followed by a colon.  Both return NaN (`none`) when there is no match. -/

/-- Numeric value of a digit string. -/
def digitsVal (ds : List Char) : Nat :=
  ds.foldl (fun n c => 10 * n + (c.toNat - 48)) 0

/-- Split a leading digit run off a character list. -/
def takeDigits (cs : List Char) : List Char × List Char :=
  (cs.takeWhile Char.isDigit, cs.dropWhile Char.isDigit)

/-- Leftmost match of `\((\d+)\)`: the first integer enclosed in
parentheses, as in `Ad set name'`s `"Set A (12345)"`. -/
def findParen : List Char → Option Nat
  | [] => none
  | c :: rest =>
    if c = '(' then
      let p := takeDigits rest
      if p.1 ≠ [] ∧ p.2.head? = some ')' then some (digitsVal p.1)
      else findParen rest
    else findParen rest

/-- One fuelled scan step for `findHour`; the fuel only bounds the
recursion (each step consumes at least one character, so a fuel of the
list's length never runs out). -/
def findHourFuel : Nat → List Char → Option Nat
  | 0, _ => none
  | _, [] => none
  | fuel + 1, c :: rest =>
    if c.isDigit then
      let ds := List.takeWhile Char.isDigit (c :: rest)
      let rest2 := List.dropWhile Char.isDigit rest
      if rest2.head? = some ':' then some (digitsVal ds)
      else findHourFuel fuel rest2
    else findHourFuel fuel rest

/-- Leftmost match of `(\d+):`: the first digit run directly followed by
a colon, as in `"14:00"`.  (A digit run not followed by a colon cannot
match at any of its positions, so the scan resumes after it.) -/
def findHour (cs : List Char) : Option Nat :=
  findHourFuel cs.length cs

/-- campid extraction of one spend row (line 25): leftmost `(digits)`
in the ad-set name, as a float that may be NaN. -/
def extractCampid (r : SpendRecord) : Option Nat :=
  findParen r.ad_set_name.toList

/-- hour extraction of one spend row (line 26), before the `astype(int)`
coercion that fails on NaN. -/
def extractHour (r : SpendRecord) : Option Nat :=
  findHour r.time_label.toList

/-! ### Spend cleaning (lines 24-30)

Line 25 keeps a failed campid extraction as NaN (`astype(float)`), so it
survives until the `dropna()` of line 29.  Line 26 coerces the extracted
hour with `astype(int)`, which raises on NaN: a single unparsable time
label aborts the whole cleaning stage, modelled as `none`. -/

/-- The fate of one spend row under lines 25-30: it survives the
`dropna()` exactly when the campid extraction matched and both numeric
columns are present. -/
def rowClean (r : SpendRecord) : Option CleanedSpend :=
  (extractCampid r).bind fun c =>
    (extractHour r).bind fun h =>
      r.amount_spent.bind fun s =>
        r.results.bind fun res => some ⟨(c : Int), (h : Int), s, res⟩

/-- The spend cleaner (lines 25-30): `none` models the `astype(int)`
exception on an unparsable time label; otherwise the rows surviving
`dropna()` on {campid, hour, hourly_spend, hourly_results}. -/
def spendClean (spend : List SpendRecord) : Option (List CleanedSpend) :=
  if spend.all (fun r => (extractHour r).isSome) then
    some (spend.filterMap rowClean)
  else none

/-! ### Grouped aggregation (lines 36-46)

`groupby(['campid','hour'], as_index=False).agg(...)` with the default
`sort=True`: one output row per distinct key, keys sorted ascending by
(campid, hour), each value column summed over the group. -/

/-- Strict lexicographic order on (campid, hour) keys. -/
def keyLt (a b : Int × Int) : Prop :=
  a.1 < b.1 ∨ (a.1 = b.1 ∧ a.2 < b.2)

instance (a b : Int × Int) : Decidable (keyLt a b) := by
  unfold keyLt; infer_instance

/-- Insert a key into a sorted duplicate-free key list, keeping it
sorted and duplicate-free. -/
def insertKey (k : Int × Int) : List (Int × Int) → List (Int × Int)
  | [] => [k]
  | k' :: ks =>
    if keyLt k k' then k :: k' :: ks
    else if k = k' then k' :: ks
    else k' :: insertKey k ks

/-- The distinct (campid, hour) keys of a row list, sorted ascending. -/
def sortedKeys (l : List (Int × Int)) : List (Int × Int) :=
  l.foldl (fun acc k => insertKey k acc) []

/-- Revenue aggregation (lines 37-40): group by (campid, hour), sum
estimated_earnings and clicks (renamed total_clicks). -/
def aggRevenue (rows : List RevenueRecord) : List AggRevenue :=
  (sortedKeys (rows.map fun r => (r.campid, r.hour))).map fun k =>
    { campid := k.1, hour := k.2
      estimated_earnings :=
        ((rows.filter fun r => r.campid = k.1 ∧ r.hour = k.2).map
          RevenueRecord.estimated_earnings).sum
      total_clicks :=
        ((rows.filter fun r => r.campid = k.1 ∧ r.hour = k.2).map
          RevenueRecord.clicks).sum }

/-- Spend aggregation (lines 43-46): group by (campid, hour), sum
hourly_spend and hourly_results. -/
def aggSpend (rows : List CleanedSpend) : List CleanedSpend :=
  (sortedKeys (rows.map fun r => (r.campid, r.hour))).map fun k =>
    { campid := k.1, hour := k.2
      hourly_spend :=
        ((rows.filter fun r => r.campid = k.1 ∧ r.hour = k.2).map
          CleanedSpend.hourly_spend).sum
      hourly_results :=
        ((rows.filter fun r => r.campid = k.1 ∧ r.hour = k.2).map
          CleanedSpend.hourly_results).sum }

/-- The campaign pre-filter (lines 33-34): keep only revenue rows whose
campid occurs in the cleaned spend rows. -/
def revenueFiltered (revenue : List RevenueRecord) (cleaned : List CleanedSpend) :
    List RevenueRecord :=
  revenue.filter fun r => cleaned.any fun c => c.campid = r.campid

/-- A merged row before the campaign-name join (lines 49-54). -/
structure MergedRow where
  campid : Int
  hour : Int
  estimated_earnings : ℚ
  total_clicks : ℚ
  hourly_spend : ℚ
  hourly_results : ℚ
deriving DecidableEq, Repr

/-- The inner merge on (campid, hour) (lines 49-54): pandas emits, for
each left row in left order, one combined row per matching right row. -/
def mergeInner (rev : List AggRevenue) (sp : List CleanedSpend) : List MergedRow :=
  rev.flatMap fun r =>
    (sp.filter fun s => s.campid = r.campid ∧ s.hour = r.hour).map fun s =>
      { campid := r.campid, hour := r.hour
        estimated_earnings := r.estimated_earnings, total_clicks := r.total_clicks
        hourly_spend := s.hourly_spend, hourly_results := s.hourly_results }

/-! ### Campaign-name left join (lines 56-59)

`spend_data[['campid','Ad set name']].drop_duplicates()` dedups the
(campid, name) PAIRS of the raw spend table (campid there is the float
extraction, possibly NaN), keeping first occurrences; the result is
left-merged on campid. -/

/-- Keep the first occurrence of each element (`drop_duplicates()`),
`seen` accumulating the elements already kept. -/
def dedupAux {α : Type} [DecidableEq α] : List α → List α → List α
  | _, [] => []
  | seen, a :: l =>
    if a ∈ seen then dedupAux seen l else a :: dedupAux (a :: seen) l

/-- `drop_duplicates()`: first-occurrence deduplication. -/
def dedupFirst {α : Type} [DecidableEq α] (l : List α) : List α :=
  dedupAux [] l

/-- The campaign_name lookup (lines 57-58): deduplicated
(campid, ad-set-name) pairs of the raw spend rows, campid possibly NaN. -/
def nameMapping (spend : List SpendRecord) : List (Option Int × String) :=
  dedupFirst (spend.map fun r => ((extractCampid r).map Int.ofNat, r.ad_set_name))

/-- The left merge of line 59: each merged row is combined with every
mapping entry sharing its campid, in mapping order; a row with no match
keeps a NaN name. -/
def addNames (rows : List MergedRow) (mapping : List (Option Int × String)) :
    List NamedRow :=
  rows.flatMap fun r =>
    let ms := mapping.filter fun p => p.1 = some r.campid
    if ms.isEmpty then
      [{ campid := r.campid, hour := r.hour
         estimated_earnings := r.estimated_earnings, total_clicks := r.total_clicks
         hourly_spend := r.hourly_spend, hourly_results := r.hourly_results
         campaign_name := none }]
    else
      ms.map fun p =>
        { campid := r.campid, hour := r.hour
          estimated_earnings := r.estimated_earnings, total_clicks := r.total_clicks
          hourly_spend := r.hourly_spend, hourly_results := r.hourly_results
          campaign_name := some p.2 }

/-! ### Per-campaign differencing (lines 62-63)

`groupby('campid')['estimated_earnings'].diff()` subtracts, within each
campid group in the table's row order, the previous group row;
`.fillna(...)` replaces the NaN of each group's first row with the
row's own value. -/

/-- The most recent previously-seen row of campaign `c` (`seen` holds
earlier table rows most-recent-first). -/
def prevSame (c : Int) : List NamedRow → Option NamedRow
  | [] => none
  | r :: rs => if r.campid = c then some r else prevSame c rs

/-- The hourly_revenue delta of one row given its diff partner:
`none` (a group's first row) keeps the row's own cumulative value
(`fillna`), `some p` subtracts the partner. -/
def hrevOf (p : Option NamedRow) (r : NamedRow) : ℚ :=
  match p with
  | none => r.estimated_earnings
  | some q => r.estimated_earnings - q.estimated_earnings

/-- The hourly_clicks delta of one row given its diff partner. -/
def hclkOf (p : Option NamedRow) (r : NamedRow) : ℚ :=
  match p with
  | none => r.total_clicks
  | some q => r.total_clicks - q.total_clicks

/-- diff + fillna of lines 62-63: each row is paired with its
hourly_revenue and hourly_clicks deltas. -/
def diffRows (seen : List NamedRow) : List NamedRow → List (NamedRow × ℚ × ℚ)
  | [] => []
  | r :: rs =>
    (r, hrevOf (prevSame r.campid seen) r, hclkOf (prevSame r.campid seen) r)
      :: diffRows (r :: seen) rs

/-! ### Metric derivation and rounding (lines 65-94) -/

/-- Floor of a rational, as the floor division of its numerator by its
denominator (kept executable). -/
def ratFloor (q : ℚ) : ℤ :=
  Int.fdiv q.num (q.den : ℤ)

/-- Round to the nearest integer, ties to even (numpy/pandas `round`). -/
def roundHalfEven (q : ℚ) : ℤ :=
  let f := ratFloor q
  if q - f < 1/2 then f
  else if 1/2 < q - f then f + 1
  else if f % 2 = 0 then f else f + 1

/-- `round(2)`: round to 2 decimal places, ties to even. -/
def round2 (q : ℚ) : ℚ :=
  (roundHalfEven (100 * q) : ℚ) / 100

/-- Derivation of one output row before rounding (lines 65-82): the
guarded divisions, profit, roi and the profit_loss label, all computed
on exact values, in the final column order of lines 90-94. -/
def deriveRaw (r : NamedRow) (hrev hclk : ℚ) : FinalRow :=
  let rpc := if hclk > 0 then hrev / hclk else 0
  let cpr := if r.hourly_results > 0 then r.hourly_spend / r.hourly_results else 0
  let profit := hrev - r.hourly_spend
  let roi := if r.hourly_spend > 0 then profit / r.hourly_spend * 100 else 0
  let pl := if profit > 0 then "Profit" else if profit < 0 then "Loss" else "Break-Even"
  { campid := r.campid, campaign_name := r.campaign_name, hour := r.hour
    hourly_spend := r.hourly_spend, hourly_results := r.hourly_results
    estimated_earnings := r.estimated_earnings, total_clicks := r.total_clicks
    hourly_revenue := hrev, hourly_clicks := hclk
    hourly_cpr := cpr, hourly_rpc := rpc
    profit := profit, roi := roi
    profit_loss := pl }

/-- Line 87: round the ten numeric columns to 2 decimal places (the
keys and the profit_loss label are untouched). -/
def roundRow (row : FinalRow) : FinalRow :=
  { row with
    hourly_spend := round2 row.hourly_spend, hourly_results := round2 row.hourly_results
    estimated_earnings := round2 row.estimated_earnings
    total_clicks := round2 row.total_clicks
    hourly_revenue := round2 row.hourly_revenue, hourly_clicks := round2 row.hourly_clicks
    hourly_cpr := round2 row.hourly_cpr, hourly_rpc := round2 row.hourly_rpc
    profit := round2 row.profit, roi := round2 row.roi }

/-- Derivation of one finished output row (lines 65-94): classification
on exact values first, rounding after. -/
def deriveRow (r : NamedRow) (hrev hclk : ℚ) : FinalRow :=
  roundRow (deriveRaw r hrev hclk)

/-- The pipeline from the cleaned spend rows on (lines 32-94). -/
def pipelineFromCleaned (revenue : List RevenueRecord) (spend : List SpendRecord)
    (cleaned : List CleanedSpend) : List FinalRow :=
  (diffRows []
      (addNames
        (mergeInner (aggRevenue (revenueFiltered revenue cleaned)) (aggSpend cleaned))
        (nameMapping spend))).map
    fun t => deriveRow t.1 t.2.1 t.2.2

/-- The whole metrics pipeline (lines 16-94): `none` when the spend
cleaning stage raises. -/
def pipeline (revenue : List RevenueRecord) (spend : List SpendRecord) :
    Option (List FinalRow) :=
  (spendClean spend).map (pipelineFromCleaned revenue spend)

/-- A rational is representable with 2 decimal places. -/
def twoDecimals (q : ℚ) : Prop :=
  (100 * q).den = 1

/-! ### Concrete inputs used by the end-to-end scenario and by the
counterexample runs. -/

/-- Revenue input of the spec's end-to-end scenario. -/
def revC8 : List RevenueRecord :=
  [⟨12345, 10, 500, 10⟩, ⟨12345, 11, 800, 25⟩]

/-- Spend input of the spec's end-to-end scenario. -/
def spendC8 : List SpendRecord :=
  [⟨"Set (12345)", "10:00", some 50, some 5⟩,
   ⟨"Set (12345)", "11:00", some 80, some 8⟩]

/-- Cleaned spend rows of the end-to-end scenario. -/
def cleanedC8 : List CleanedSpend :=
  [⟨12345, 10, 50, 5⟩, ⟨12345, 11, 80, 8⟩]

/-- Named merged rows of the end-to-end scenario. -/
def namedC8 : List NamedRow :=
  [⟨12345, 10, 500, 10, 50, 5, some "Set (12345)"⟩,
   ⟨12345, 11, 800, 25, 80, 8, some "Set (12345)"⟩]

/-- Expected output of the end-to-end scenario. -/
def outC8 : List FinalRow :=
  [⟨12345, some "Set (12345)", 10, 50, 5, 500, 10, 500, 10, 10, 50, 450, 900, "Profit"⟩,
   ⟨12345, some "Set (12345)", 11, 80, 8, 800, 25, 300, 15, 10, 20, 220, 275, "Profit"⟩]

/-- One revenue row, campaign 1 at hour 0. -/
def revDup : List RevenueRecord :=
  [⟨1, 0, 10, 1⟩]

/-- Two raw spend rows whose distinct ad-set names embed the same
campaign id 1, both at hour 0. -/
def spendDup : List SpendRecord :=
  [⟨"A (1)", "0:00", some 5, some 1⟩, ⟨"B (1)", "0:00", some 6, some 1⟩]

/-- The pipeline output on (revDup, spendDup): the campaign-name left
join replicates the single merged (1, 0) row once per distinct name. -/
def outDup : List FinalRow :=
  [⟨1, some "A (1)", 0, 11, 2, 10, 1, 10, 1, (11 : ℚ)/2, 10, -1, (-909 : ℚ)/100, "Loss"⟩,
   ⟨1, some "B (1)", 0, 11, 2, 10, 1, 0, 0, (11 : ℚ)/2, 0, -11, -100, "Loss"⟩]

/-- Two revenue rows of campaign 1 at hours 0 and 1 with cumulative
earnings 10 and 30. -/
def revC9 : List RevenueRecord :=
  [⟨1, 0, 10, 1⟩, ⟨1, 1, 30, 4⟩]

/-- Spend rows at hours 0 and 1 whose distinct ad-set names embed the
same campaign id 1. -/
def spendC9 : List SpendRecord :=
  [⟨"A (1)", "0:00", some 5, some 1⟩, ⟨"B (1)", "1:00", some 7, some 2⟩]

/-- The pipeline output on (revC9, spendC9): after the name join the
row order is (1,0) (1,0) (1,1) (1,1), and the differencing subtracts
same-hour duplicates, not the next-lower hour. -/
def outC9 : List FinalRow :=
  [⟨1, some "A (1)", 0, 5, 1, 10, 1, 10, 1, 5, 10, 5, 100, "Profit"⟩,
   ⟨1, some "B (1)", 0, 5, 1, 10, 1, 0, 0, 5, 0, -5, -100, "Loss"⟩,
   ⟨1, some "A (1)", 1, 7, 2, 30, 4, 20, 3, (7 : ℚ)/2, (667 : ℚ)/100, 13, (18571 : ℚ)/100, "Profit"⟩,
   ⟨1, some "B (1)", 1, 7, 2, 30, 4, 0, 0, (7 : ℚ)/2, 0, -7, -100, "Loss"⟩]

/-- A spend row whose time-of-day label has no integer before a colon
(its ad-set name parses fine). -/
def spendBad : List SpendRecord :=
  [⟨"A (1)", "bad", some 5, some 1⟩]

/-- Three hour-ordered rows of one campaign with cumulative earnings
100, 150, 200. -/
def cumRows : List NamedRow :=
  [⟨1, 0, 100, 0, 0, 0, none⟩, ⟨1, 1, 150, 0, 0, 0, none⟩, ⟨1, 2, 200, 0, 0, 0, none⟩]

/-- An all-zero named row. -/
def nullRow : NamedRow :=
  ⟨0, 0, 0, 0, 0, 0, none⟩

/-! ## Theorems -/

/-- Concrete run: the pipeline on (revDup, spendDup). -/
lemma pipeline_dup_eval : pipeline revDup spendDup = some outDup := by
  have h1 : spendClean spendDup = some [⟨1, 0, 5, 1⟩, ⟨1, 0, 6, 1⟩] := by decide
  have h2 : revenueFiltered revDup [⟨1, 0, 5, 1⟩, ⟨1, 0, 6, 1⟩] = revDup := by decide
  have h3 : aggRevenue revDup = [⟨1, 0, 10, 1⟩] := by with_unfolding_all rfl
  have h4 : aggSpend [⟨1, 0, 5, 1⟩, ⟨1, 0, 6, 1⟩] = [⟨1, 0, 11, 2⟩] := by
    with_unfolding_all rfl
  have h5 : mergeInner [⟨1, 0, 10, 1⟩] [⟨1, 0, 11, 2⟩] = [⟨1, 0, 10, 1, 11, 2⟩] := by
    decide
  have h6 : nameMapping spendDup = [(some 1, "A (1)"), (some 1, "B (1)")] := by decide
  have h7 : addNames [⟨1, 0, 10, 1, 11, 2⟩] [(some 1, "A (1)"), (some 1, "B (1)")] =
      [⟨1, 0, 10, 1, 11, 2, some "A (1)"⟩, ⟨1, 0, 10, 1, 11, 2, some "B (1)"⟩] := by
    decide
  have h8 : (diffRows []
        [⟨1, 0, 10, 1, 11, 2, some "A (1)"⟩, ⟨1, 0, 10, 1, 11, 2, some "B (1)"⟩]).map
      (fun t => deriveRow t.1 t.2.1 t.2.2) = outDup := by
    with_unfolding_all rfl
  rw [pipeline, h1, Option.map_some', pipelineFromCleaned, h2, h3, h4, h5, h6, h7, h8]

/-- Concrete run: the pipeline on (revC9, spendC9). -/
lemma pipeline_c9_eval : pipeline revC9 spendC9 = some outC9 := by
  have h1 : spendClean spendC9 = some [⟨1, 0, 5, 1⟩, ⟨1, 1, 7, 2⟩] := by decide
  have h2 : revenueFiltered revC9 [⟨1, 0, 5, 1⟩, ⟨1, 1, 7, 2⟩] = revC9 := by decide
  have h3 : aggRevenue revC9 = [⟨1, 0, 10, 1⟩, ⟨1, 1, 30, 4⟩] := by with_unfolding_all rfl
  have h4 : aggSpend [⟨1, 0, 5, 1⟩, ⟨1, 1, 7, 2⟩] = [⟨1, 0, 5, 1⟩, ⟨1, 1, 7, 2⟩] := by
    with_unfolding_all rfl
  have h5 : mergeInner [⟨1, 0, 10, 1⟩, ⟨1, 1, 30, 4⟩] [⟨1, 0, 5, 1⟩, ⟨1, 1, 7, 2⟩] =
      [⟨1, 0, 10, 1, 5, 1⟩, ⟨1, 1, 30, 4, 7, 2⟩] := by decide
  have h6 : nameMapping spendC9 = [(some 1, "A (1)"), (some 1, "B (1)")] := by decide
  have h7 : addNames [⟨1, 0, 10, 1, 5, 1⟩, ⟨1, 1, 30, 4, 7, 2⟩]
      [(some 1, "A (1)"), (some 1, "B (1)")] =
      [⟨1, 0, 10, 1, 5, 1, some "A (1)"⟩, ⟨1, 0, 10, 1, 5, 1, some "B (1)"⟩,
       ⟨1, 1, 30, 4, 7, 2, some "A (1)"⟩, ⟨1, 1, 30, 4, 7, 2, some "B (1)"⟩] := by
    decide
  have h8 : (diffRows []
        [⟨1, 0, 10, 1, 5, 1, some "A (1)"⟩, ⟨1, 0, 10, 1, 5, 1, some "B (1)"⟩,
         ⟨1, 1, 30, 4, 7, 2, some "A (1)"⟩, ⟨1, 1, 30, 4, 7, 2, some "B (1)"⟩]).map
      (fun t => deriveRow t.1 t.2.1 t.2.2) = outC9 := by
    with_unfolding_all rfl
  rw [pipeline, h1, Option.map_some', pipelineFromCleaned, h2, h3, h4, h5, h6, h7, h8]

/-- Concrete run: the pipeline on the end-to-end scenario input. -/
lemma pipeline_c8_eval : pipeline revC8 spendC8 = some outC8 := by
  have h1 : spendClean spendC8 = some cleanedC8 := by decide
  have h2 : revenueFiltered revC8 cleanedC8 = revC8 := by decide
  have h3 : aggRevenue revC8 = [⟨12345, 10, 500, 10⟩, ⟨12345, 11, 800, 25⟩] := by
    with_unfolding_all rfl
  have h4 : aggSpend cleanedC8 = cleanedC8 := by with_unfolding_all rfl
  have h5 : mergeInner [⟨12345, 10, 500, 10⟩, ⟨12345, 11, 800, 25⟩] cleanedC8 =
      [⟨12345, 10, 500, 10, 50, 5⟩, ⟨12345, 11, 800, 25, 80, 8⟩] := by decide
  have h6 : nameMapping spendC8 = [(some 12345, "Set (12345)")] := by decide
  have h7 : addNames [⟨12345, 10, 500, 10, 50, 5⟩, ⟨12345, 11, 800, 25, 80, 8⟩]
      [(some 12345, "Set (12345)")] = namedC8 := by decide
  have h8 : (diffRows [] namedC8).map (fun t => deriveRow t.1 t.2.1 t.2.2) = outC8 := by
    with_unfolding_all rfl
  rw [pipeline, h1, Option.map_some', pipelineFromCleaned, h2, h3, h4, h5, h6, h7, h8]

/-- The spend cleaning of the end-to-end scenario. -/
lemma spendClean_c8 : spendClean spendC8 = some cleanedC8 := by decide

/-- C8: on the spec's end-to-end input the pipeline outputs exactly the
two expected rows (hour 10: hourly_revenue 500, hourly_clicks 10,
hourly_rpc 50, hourly_cpr 10, profit 450, roi 900, "Profit"; hour 11:
hourly_revenue 300, hourly_clicks 15, hourly_rpc 20, hourly_cpr 10,
profit 220, roi 275, "Profit"). -/
theorem C8_end_to_end : pipeline revC8 spendC8 = some outC8 :=
  pipeline_c8_eval

/-- C1 counterexample: on (revDup, spendDup) — two raw spend rows with
different ad-set-name strings embedding the same campaign id — the
output has two rows with the same (campaign_id, hour) pair, refuting
the uniqueness invariant as stated. -/
theorem C1_counterexample :
    pipeline revDup spendDup = some outDup ∧
    ¬ outDup.Pairwise (fun a b => ¬(a.campid = b.campid ∧ a.hour = b.hour)) := by
  refine ⟨pipeline_dup_eval, ?_⟩
  decide

/-- C7 counterexample: on (revDup, spendDup) the first occurrence of
campaign id 1 in the raw spend records carries ad-set-name "A (1)",
yet an output row of campaign 1 carries campaign_name "B (1)", and the
campaign maps to two different names, refuting the claim. -/
theorem C7_counterexample :
    pipeline revDup spendDup = some outDup ∧
    spendDup.map SpendRecord.ad_set_name = ["A (1)", "B (1)"] ∧
    outDup.map FinalRow.campid = [1, 1] ∧
    outDup.map FinalRow.campaign_name = [some "A (1)", some "B (1)"] := by
  refine ⟨pipeline_dup_eval, by decide, by decide, by decide⟩

/-- C9 counterexample: on (revC9, spendC9) campaign 1 has hour rows 0
(cumulative 10) and 1 (cumulative 30), so differencing against the
next-lower hour would give every hour-1 row hourly_revenue 20; but the
name join replicated the rows and one hour-1 output row has
hourly_revenue 0 (its diff partner was the same-hour duplicate). -/
theorem C9_counterexample :
    pipeline revC9 spendC9 = some outC9 ∧
    ¬ (∀ r ∈ outC9, r.campid = 1 → r.hour = 1 → r.hourly_revenue = 20) := by
  exact ⟨pipeline_c9_eval, by decide⟩

/-- A cleaned row arises from a spend row exactly when all four source
fields are available, and it carries them coerced to integers. -/
lemma rowClean_eq_some {r : SpendRecord} {c : CleanedSpend} :
    rowClean r = some c ↔
      ∃ cn hn, extractCampid r = some cn ∧ extractHour r = some hn ∧
        r.amount_spent = some c.hourly_spend ∧ r.results = some c.hourly_results ∧
        c.campid = (cn : Int) ∧ c.hour = (hn : Int) := by
  constructor
  · intro h
    simp only [rowClean, Option.bind_eq_some] at h
    obtain ⟨cn, hcn, hn, hhn, s, hs, res, hres, heq⟩ := h
    obtain rfl := Option.some.inj heq
    exact ⟨cn, hn, hcn, hhn, hs, hres, rfl, rfl⟩
  · intro ⟨cn, hn, hcn, hhn, hs, hres, hc1, hc2⟩
    simp only [rowClean, Option.bind_eq_some]
    refine ⟨cn, hcn, hn, hhn, c.hourly_spend, hs, c.hourly_results, hres, ?_⟩
    cases c
    simp_all

/-- A row with no parenthesized integer in its ad-set name is dropped. -/
lemma rowClean_none_of_campid_none {r : SpendRecord} (hc : extractCampid r = none) :
    rowClean r = none := by
  simp [rowClean, hc]

/-- A row missing its amount-spent or results value is dropped. -/
lemma rowClean_none_of_missing {r : SpendRecord}
    (h : r.amount_spent = none ∨ r.results = none) : rowClean r = none := by
  rcases hc : extractCampid r with _ | cn
  · simp [rowClean, hc]
  rcases hh : extractHour r with _ | hn
  · simp [rowClean, hc, hh]
  rcases h with h | h
  · simp [rowClean, hc, hh, h]
  rcases hs : r.amount_spent with _ | s
  · simp [rowClean, hc, hh, hs]
  · simp [rowClean, hc, hh, hs, h]

/-- Given a parsable hour, a row survives cleaning exactly when its
campid parses and both numeric fields are present. -/
lemma rowClean_isSome_iff {r : SpendRecord} (hh : (extractHour r).isSome) :
    (rowClean r).isSome ↔
      ((extractCampid r).isSome ∧ r.amount_spent.isSome ∧ r.results.isSome) := by
  obtain ⟨hn, hhn⟩ := Option.isSome_iff_exists.mp hh
  rcases hc : extractCampid r with _ | cn
  · simp [rowClean, hc]
  rcases hs : r.amount_spent with _ | s
  · simp [rowClean, hc, hhn, hs]
  rcases hr : r.results with _ | res
  · simp [rowClean, hc, hhn, hs, hr]
  · simp [rowClean, hc, hhn, hs, hr]

/-- The spend cleaner succeeds iff every row's time-of-day label has an
integer before a colon. -/
lemma spendClean_isSome_iff (spend : List SpendRecord) :
    (spendClean spend).isSome ↔ ∀ r ∈ spend, (extractHour r).isSome := by
  unfold spendClean
  split
  · next h =>
    simp only [Option.isSome_some, true_iff]
    intro r hr
    simpa using List.all_eq_true.mp h r hr
  · next h =>
    simp only [Option.isSome_none, Bool.false_eq_true, false_iff]
    intro hall
    exact h (List.all_eq_true.mpr fun r hr => by simpa using hall r hr)

/-- A successful cleaning returns the per-row cleaning results, and
witnesses that every hour parsed. -/
lemma spendClean_eq_some {spend : List SpendRecord} {l : List CleanedSpend}
    (h : spendClean spend = some l) :
    l = spend.filterMap rowClean ∧ ∀ r ∈ spend, (extractHour r).isSome := by
  unfold spendClean at h
  split at h
  · next hall =>
    exact ⟨(Option.some.inj h).symm, fun r hr => by simpa using List.all_eq_true.mp hall r hr⟩
  · exact absurd h (by simp)

/-- When every hour parses, the cleaned table has one row per raw row
whose campid parses and whose numeric fields are present. -/
lemma filterMap_rowClean_length (spend : List SpendRecord)
    (hall : ∀ r ∈ spend, (extractHour r).isSome) :
    (spend.filterMap rowClean).length =
      (spend.filter fun r =>
        decide ((extractCampid r).isSome ∧ r.amount_spent.isSome ∧ r.results.isSome)).length := by
  induction spend with
  | nil => rfl
  | cons r rest ih =>
    have hr : (extractHour r).isSome := hall r (by simp)
    have hrest : ∀ x ∈ rest, (extractHour x).isSome :=
      fun x hx => hall x (List.mem_cons_of_mem _ hx)
    rw [List.filterMap_cons, List.filter_cons]
    by_cases hp : (extractCampid r).isSome ∧ r.amount_spent.isSome ∧ r.results.isSome
    · obtain ⟨c, hc⟩ := Option.isSome_iff_exists.mp ((rowClean_isSome_iff hr).mpr hp)
      rw [hc]
      simp [hp, ih hrest]
    · have hnone : rowClean r = none := by
        cases hn : rowClean r with
        | none => rfl
        | some c =>
          exact absurd ((rowClean_isSome_iff hr).mp (by simp [hn])) hp
      rw [hnone]
      simp [hp, ih hrest]

/-- C2 (amended): the cleaner silently drops rows whose ad-set name has
no parenthesized integer (and rows with missing numerics), returning
the surviving rows with campid and hour coerced to integers — but it
only succeeds when every row's time-of-day has an integer before a
colon; otherwise the whole cleaning stage fails. -/
theorem C2_cleaning_policy (spend : List SpendRecord) :
    ((spendClean spend).isSome ↔ ∀ r ∈ spend, (extractHour r).isSome)
    ∧ ∀ l, spendClean spend = some l →
        (∀ r ∈ spend, extractCampid r = none → rowClean r = none)
        ∧ l.length = (spend.filter fun r =>
            decide ((extractCampid r).isSome ∧ r.amount_spent.isSome ∧ r.results.isSome)).length
        ∧ ∀ c ∈ l, ∃ r ∈ spend, ∃ cn hn,
            extractCampid r = some cn ∧ extractHour r = some hn ∧
            c.campid = (cn : Int) ∧ c.hour = (hn : Int) ∧
            r.amount_spent = some c.hourly_spend ∧ r.results = some c.hourly_results := by
  refine ⟨spendClean_isSome_iff spend, fun l hl => ?_⟩
  obtain ⟨rfl, hall⟩ := spendClean_eq_some hl
  refine ⟨fun r _ hc => rowClean_none_of_campid_none hc,
    filterMap_rowClean_length spend hall, ?_⟩
  intro c hc
  obtain ⟨r, hr, hrc⟩ := List.mem_filterMap.mp hc
  obtain ⟨cn, hn, h1, h2, h3, h4, h5, h6⟩ := rowClean_eq_some.mp hrc
  exact ⟨r, hr, cn, hn, h1, h2, h5, h6, h3, h4⟩

/-- C2 witness: the policy instantiated on the spendDup input. -/
theorem C2_witness :
    ([⟨1, 0, 5, 1⟩, ⟨1, 0, 6, 1⟩] : List CleanedSpend).length =
      (spendDup.filter fun r =>
        decide ((extractCampid r).isSome ∧ r.amount_spent.isSome ∧ r.results.isSome)).length :=
  ((C2_cleaning_policy spendDup).2 [⟨1, 0, 5, 1⟩, ⟨1, 0, 6, 1⟩] (by decide)).2.1

/-- C10: the spend cleaner also drops every row whose amount-spent or
results value is missing; each cleaned row originates from a raw row
with all four fields available (non-null), which it carries. -/
theorem C10_missing_numeric_dropped :
    (∀ r : SpendRecord, r.amount_spent = none ∨ r.results = none → rowClean r = none)
    ∧ ∀ (spend : List SpendRecord) (l : List CleanedSpend), spendClean spend = some l →
        ∀ c ∈ l, ∃ r ∈ spend, rowClean r = some c ∧
          r.amount_spent = some c.hourly_spend ∧ r.results = some c.hourly_results ∧
          (extractCampid r).isSome ∧ (extractHour r).isSome := by
  refine ⟨fun r h => rowClean_none_of_missing h, fun spend l hl c hc => ?_⟩
  obtain ⟨rfl, hall⟩ := spendClean_eq_some hl
  obtain ⟨r, hr, hrc⟩ := List.mem_filterMap.mp hc
  obtain ⟨cn, hn, h1, h2, h3, h4, h5, h6⟩ := rowClean_eq_some.mp hrc
  exact ⟨r, hr, hrc, h3, h4, by simp [h1], by simp [h2]⟩

/-- C10 witness: the policy instantiated on a row with a missing
results value and on the spendDup cleaning. -/
theorem C10_witness :
    rowClean ⟨"A (1)", "0:00", some 5, none⟩ = none ∧
    (∃ r ∈ spendDup, rowClean r = some ⟨1, 0, 5, 1⟩ ∧
      r.amount_spent = some (5 : ℚ) ∧ r.results = some (1 : ℚ) ∧
      (extractCampid r).isSome ∧ (extractHour r).isSome) :=
  ⟨C10_missing_numeric_dropped.1 ⟨"A (1)", "0:00", some 5, none⟩ (Or.inr rfl),
   C10_missing_numeric_dropped.2 spendDup [⟨1, 0, 5, 1⟩, ⟨1, 0, 6, 1⟩] (by decide)
     ⟨1, 0, 5, 1⟩ (by decide)⟩

/-- The differencing step produces one output entry per row. -/
lemma diffRows_length (seen rest : List NamedRow) :
    (diffRows seen rest).length = rest.length := by
  induction rest generalizing seen with
  | nil => rfl
  | cons r rs ih => simp [diffRows, ih]

/-- The differencing step keeps each row unchanged in first position. -/
lemma diffRows_fst (seen rest : List NamedRow) :
    (diffRows seen rest).map Prod.fst = rest := by
  induction rest generalizing seen with
  | nil => rfl
  | cons r rs ih => simp [diffRows, ih]

/-- Entry `i` of the differencing output: the row itself together with
the deltas taken against the nearest earlier row of the same campaign
(`seen` holding the rows before `rest`, most recent first). -/
lemma diffRows_get (rest : List NamedRow) :
    ∀ (seen : List NamedRow) (i : Nat) (hi : i < rest.length)
      (hi' : i < (diffRows seen rest).length),
      (diffRows seen rest).get ⟨i, hi'⟩ =
        (rest.get ⟨i, hi⟩,
         hrevOf (prevSame (rest.get ⟨i, hi⟩).campid ((rest.take i).reverse ++ seen))
           (rest.get ⟨i, hi⟩),
         hclkOf (prevSame (rest.get ⟨i, hi⟩).campid ((rest.take i).reverse ++ seen))
           (rest.get ⟨i, hi⟩)) := by
  induction rest with
  | nil => intro seen i hi _; exact absurd hi (by simp)
  | cons r rs ih =>
    intro seen i hi hi'
    cases i with
    | zero => simp [diffRows]
    | succ j =>
      have hj : j < rs.length := by simpa using hi
      have hj' : j < (diffRows (r :: seen) rs).length := by
        rw [diffRows_length]; exact hj
      have h := ih (r :: seen) j hj hj'
      simp only [diffRows, List.get_cons_succ]
      rw [h]
      simp [List.take_succ_cons, List.reverse_cons, List.append_assoc]

/-- C3: within the merged table's row order, each row's hourly_revenue
delta is its estimated_earnings minus that of the nearest earlier row
of the same campaign, or the raw cumulative value when no earlier row
of the campaign exists; the same holds for hourly_clicks from
total_clicks; and the cumulative sequence [100, 150, 200] of one
campaign yields hourly_revenue deltas [100, 50, 50]. -/
theorem C3_differencing :
    (∀ named : List NamedRow, (diffRows [] named).length = named.length)
    ∧ (∀ (named : List NamedRow) (i : Nat) (hi : i < named.length)
        (hi' : i < (diffRows [] named).length),
        (diffRows [] named).get ⟨i, hi'⟩ =
          (named.get ⟨i, hi⟩,
           hrevOf (prevSame (named.get ⟨i, hi⟩).campid (named.take i).reverse)
             (named.get ⟨i, hi⟩),
           hclkOf (prevSame (named.get ⟨i, hi⟩).campid (named.take i).reverse)
             (named.get ⟨i, hi⟩)))
    ∧ (diffRows [] cumRows).map (fun t => t.2.1) = [100, 50, 50] := by
  refine ⟨fun named => diffRows_length [] named, fun named i hi hi' => ?_, ?_⟩
  · have h := diffRows_get named [] i hi hi'
    simpa using h
  · with_unfolding_all rfl

/-- C3 witness: the second cumRows row (cumulative 150) paired with
delta 150 - 100 = 50. -/
theorem C3_witness :
    (diffRows [] cumRows).get? 1 = some (⟨1, 1, 150, 0, 0, 0, none⟩, 50, 0) := by
  have hlen : (diffRows [] cumRows).length = cumRows.length := C3_differencing.1 cumRows
  have h1 : 1 < (diffRows [] cumRows).length := by rw [hlen]; decide
  have h2 := C3_differencing.2.1 cumRows 1 (by decide) h1
  rw [List.get?_eq_get h1, h2]
  with_unfolding_all rfl

/-- Rounding to 2 decimals at zero is zero. -/
lemma round2_zero : round2 0 = 0 := by
  with_unfolding_all rfl

/-- A rounded value is representable with 2 decimal places. -/
lemma twoDecimals_round2 (q : ℚ) : twoDecimals (round2 q) := by
  unfold twoDecimals round2
  rw [mul_comm, div_mul_cancel₀ _ (by norm_num : (100 : ℚ) ≠ 0)]
  exact Rat.den_intCast _

/-- Every pipeline output row is a rounded raw-derived row. -/
lemma mem_pipeline_shape {revenue : List RevenueRecord} {spend : List SpendRecord}
    {out : List FinalRow} (h : pipeline revenue spend = some out) :
    ∀ row ∈ out, ∃ r hrev hclk, row = roundRow (deriveRaw r hrev hclk) := by
  intro row hrow
  unfold pipeline at h
  obtain ⟨cleaned, hcl, hout⟩ := Option.map_eq_some'.mp h
  subst hout
  unfold pipelineFromCleaned at hrow
  obtain ⟨t, _, rfl⟩ := List.mem_map.mp hrow
  exact ⟨t.1, t.2.1, t.2.2, rfl⟩

/-- C4: every output row is derived then rounded; its profit_loss label
is computed from the exact (unrounded) profit; its profit cell is the
rounded exact profit; all ten numeric cells carry 2-decimal values; and
a raw profit of 1/250 = 0.004 classifies as "Profit" while its rounded
profit cell shows 0. -/
theorem C4_classify_before_round :
    (∀ (revenue : List RevenueRecord) (spend : List SpendRecord) (out : List FinalRow),
      pipeline revenue spend = some out →
      ∀ row ∈ out, ∃ r hrev hclk, row = roundRow (deriveRaw r hrev hclk))
    ∧ (∀ (r : NamedRow) (hrev hclk : ℚ),
        (roundRow (deriveRaw r hrev hclk)).profit_loss =
          (if hrev - r.hourly_spend > 0 then "Profit"
           else if hrev - r.hourly_spend < 0 then "Loss" else "Break-Even")
        ∧ (roundRow (deriveRaw r hrev hclk)).profit = round2 (hrev - r.hourly_spend)
        ∧ twoDecimals (roundRow (deriveRaw r hrev hclk)).hourly_spend
        ∧ twoDecimals (roundRow (deriveRaw r hrev hclk)).hourly_results
        ∧ twoDecimals (roundRow (deriveRaw r hrev hclk)).estimated_earnings
        ∧ twoDecimals (roundRow (deriveRaw r hrev hclk)).total_clicks
        ∧ twoDecimals (roundRow (deriveRaw r hrev hclk)).hourly_revenue
        ∧ twoDecimals (roundRow (deriveRaw r hrev hclk)).hourly_clicks
        ∧ twoDecimals (roundRow (deriveRaw r hrev hclk)).hourly_cpr
        ∧ twoDecimals (roundRow (deriveRaw r hrev hclk)).hourly_rpc
        ∧ twoDecimals (roundRow (deriveRaw r hrev hclk)).profit
        ∧ twoDecimals (roundRow (deriveRaw r hrev hclk)).roi)
    ∧ ((roundRow (deriveRaw nullRow (1/250) 0)).profit_loss = "Profit"
        ∧ (roundRow (deriveRaw nullRow (1/250) 0)).profit = 0) := by
  refine ⟨fun revenue spend out h => mem_pipeline_shape h, fun r hrev hclk => ?_, ?_, ?_⟩
  · exact ⟨rfl, rfl, twoDecimals_round2 _, twoDecimals_round2 _, twoDecimals_round2 _,
      twoDecimals_round2 _, twoDecimals_round2 _, twoDecimals_round2 _, twoDecimals_round2 _,
      twoDecimals_round2 _, twoDecimals_round2 _, twoDecimals_round2 _⟩
  · show (if (1/250 : ℚ) - nullRow.hourly_spend > 0 then "Profit"
      else if (1/250 : ℚ) - nullRow.hourly_spend < 0 then "Loss" else "Break-Even") = "Profit"
    rw [if_pos (by norm_num [nullRow])]
  · with_unfolding_all rfl

/-- C4 witness: the first output row of the (revDup, spendDup) run in
rounded raw-derived shape. -/
theorem C4_witness :
    ∃ r hrev hclk,
      (⟨1, some "A (1)", 0, 11, 2, 10, 1, 10, 1, (11 : ℚ)/2, 10, -1, (-909 : ℚ)/100,
        "Loss"⟩ : FinalRow) = roundRow (deriveRaw r hrev hclk) :=
  C4_classify_before_round.1 revDup spendDup outDup pipeline_dup_eval _
    (by unfold outDup; exact List.mem_cons_self _ _)

/-- C6: every output row is derived then rounded, and on the raw
derivation the three ratio cells are division-guarded — each equals the
rounded quotient when its denominator is positive and 0 otherwise, so
no division-by-zero is ever performed. -/
theorem C6_division_guards :
    (∀ (revenue : List RevenueRecord) (spend : List SpendRecord) (out : List FinalRow),
      pipeline revenue spend = some out →
      ∀ row ∈ out, ∃ r hrev hclk, row = roundRow (deriveRaw r hrev hclk))
    ∧ ∀ (r : NamedRow) (hrev hclk : ℚ),
        ((hclk > 0 → (roundRow (deriveRaw r hrev hclk)).hourly_rpc = round2 (hrev / hclk))
          ∧ (¬ hclk > 0 → (roundRow (deriveRaw r hrev hclk)).hourly_rpc = 0))
        ∧ ((r.hourly_results > 0 → (roundRow (deriveRaw r hrev hclk)).hourly_cpr =
              round2 (r.hourly_spend / r.hourly_results))
          ∧ (¬ r.hourly_results > 0 → (roundRow (deriveRaw r hrev hclk)).hourly_cpr = 0))
        ∧ ((r.hourly_spend > 0 → (roundRow (deriveRaw r hrev hclk)).roi =
              round2 ((hrev - r.hourly_spend) / r.hourly_spend * 100))
          ∧ (¬ r.hourly_spend > 0 → (roundRow (deriveRaw r hrev hclk)).roi = 0)) := by
  refine ⟨fun revenue spend out h => mem_pipeline_shape h, fun r hrev hclk => ?_⟩
  have hrpc : (roundRow (deriveRaw r hrev hclk)).hourly_rpc =
      round2 (if hclk > 0 then hrev / hclk else 0) := rfl
  have hcpr : (roundRow (deriveRaw r hrev hclk)).hourly_cpr =
      round2 (if r.hourly_results > 0 then r.hourly_spend / r.hourly_results else 0) := rfl
  have hroi : (roundRow (deriveRaw r hrev hclk)).roi =
      round2 (if r.hourly_spend > 0 then (hrev - r.hourly_spend) / r.hourly_spend * 100 else 0) :=
    rfl
  exact ⟨⟨fun h => by rw [hrpc, if_pos h], fun h => by rw [hrpc, if_neg h, round2_zero]⟩,
    ⟨fun h => by rw [hcpr, if_pos h], fun h => by rw [hcpr, if_neg h, round2_zero]⟩,
    ⟨fun h => by rw [hroi, if_pos h], fun h => by rw [hroi, if_neg h, round2_zero]⟩⟩

/-- C6 witness: the guards instantiated at concrete rows with positive
and zero denominators. -/
theorem C6_witness :
    (roundRow (deriveRaw nullRow 10 2)).hourly_rpc = round2 (10 / 2) ∧
    (roundRow (deriveRaw nullRow 10 0)).hourly_rpc = 0 ∧
    (roundRow (deriveRaw nullRow 10 2)).hourly_cpr = 0 ∧
    (roundRow (deriveRaw nullRow 10 2)).roi = 0 :=
  ⟨(C6_division_guards.2 nullRow 10 2).1.1 (by norm_num),
   (C6_division_guards.2 nullRow 10 0).1.2 (by norm_num),
   (C6_division_guards.2 nullRow 10 2).2.1.2 (by norm_num [nullRow]),
   (C6_division_guards.2 nullRow 10 2).2.2.2 (by norm_num [nullRow])⟩

/-- keyLt is irreflexive. -/
lemma keyLt_irrefl (k : Int × Int) : ¬ keyLt k k := by
  simp [keyLt]

/-- keyLt is transitive. -/
lemma keyLt_trans {a b c : Int × Int} (h1 : keyLt a b) (h2 : keyLt b c) : keyLt a c := by
  rcases a with ⟨a1, a2⟩
  rcases b with ⟨b1, b2⟩
  rcases c with ⟨c1, c2⟩
  simp only [keyLt] at *
  omega

/-- keyLt is a strict total order: two distinct incomparable keys
cannot exist. -/
lemma keyLt_of_not {a b : Int × Int} (h1 : ¬ keyLt a b) (h2 : a ≠ b) : keyLt b a := by
  by_cases h : a.1 = b.1
  · have h1' : ¬ a.2 < b.2 := fun hlt => h1 (Or.inr ⟨h, hlt⟩)
    have h2' : a.2 ≠ b.2 := fun he => h2 (Prod.ext h he)
    exact Or.inr ⟨h.symm, by omega⟩
  · have h1' : ¬ a.1 < b.1 := fun hlt => h1 (Or.inl hlt)
    exact Or.inl (by omega)

/-- insertKey only adds the inserted key. -/
lemma insertKey_mem {x k : Int × Int} :
    ∀ {l : List (Int × Int)}, x ∈ insertKey k l → x = k ∨ x ∈ l := by
  intro l
  induction l with
  | nil => intro h; simp [insertKey] at h; exact Or.inl h
  | cons k' ks ih =>
    intro h
    unfold insertKey at h
    by_cases h1 : keyLt k k'
    · rw [if_pos h1] at h
      rcases List.mem_cons.mp h with rfl | h
      · exact Or.inl rfl
      · exact Or.inr h
    · rw [if_neg h1] at h
      by_cases h2 : k = k'
      · rw [if_pos h2] at h
        exact Or.inr h
      · rw [if_neg h2] at h
        rcases List.mem_cons.mp h with rfl | h
        · exact Or.inr (List.mem_cons_self _ _)
        · rcases ih h with h | h
          · exact Or.inl h
          · exact Or.inr (List.mem_cons_of_mem _ h)

/-- insertKey preserves strict sortedness. -/
lemma insertKey_pairwise {k : Int × Int} :
    ∀ {l : List (Int × Int)}, l.Pairwise keyLt → (insertKey k l).Pairwise keyLt := by
  intro l
  induction l with
  | nil => intro _; simp [insertKey]
  | cons k' ks ih =>
    intro h
    rw [List.pairwise_cons] at h
    obtain ⟨hk', hks⟩ := h
    unfold insertKey
    by_cases h1 : keyLt k k'
    · rw [if_pos h1]
      rw [List.pairwise_cons]
      refine ⟨?_, List.pairwise_cons.mpr ⟨hk', hks⟩⟩
      intro x hx
      rcases List.mem_cons.mp hx with rfl | hx
      · exact h1
      · exact keyLt_trans h1 (hk' x hx)
    · rw [if_neg h1]
      by_cases h2 : k = k'
      · rw [if_pos h2]
        exact List.pairwise_cons.mpr ⟨hk', hks⟩
      · rw [if_neg h2]
        rw [List.pairwise_cons]
        refine ⟨?_, ih hks⟩
        intro x hx
        rcases insertKey_mem hx with rfl | hx'
        · exact keyLt_of_not h1 h2
        · exact hk' x hx'

/-- Folding insertKey over any rows keeps the accumulator sorted. -/
lemma foldl_insertKey_pairwise (l : List (Int × Int)) :
    ∀ acc : List (Int × Int), acc.Pairwise keyLt →
      (l.foldl (fun a k => insertKey k a) acc).Pairwise keyLt := by
  induction l with
  | nil => intro acc hacc; exact hacc
  | cons k ks ih => intro acc hacc; exact ih _ (insertKey_pairwise hacc)

/-- The grouped keys are strictly sorted (hence distinct). -/
lemma sortedKeys_pairwise (l : List (Int × Int)) : (sortedKeys l).Pairwise keyLt :=
  foldl_insertKey_pairwise l [] List.Pairwise.nil

/-- Keys coming out of the fold come from the accumulator or the rows. -/
lemma foldl_insertKey_mem (l : List (Int × Int)) :
    ∀ (acc : List (Int × Int)) (k : Int × Int),
      k ∈ l.foldl (fun a x => insertKey x a) acc → k ∈ acc ∨ k ∈ l := by
  induction l with
  | nil => intro acc k h; exact Or.inl h
  | cons x xs ih =>
    intro acc k h
    rcases ih _ k h with h' | h'
    · rcases insertKey_mem h' with rfl | h''
      · exact Or.inr (List.mem_cons_self _ _)
      · exact Or.inl h''
    · exact Or.inr (List.mem_cons_of_mem _ h')

/-- Grouped keys are keys of input rows. -/
lemma sortedKeys_subset {l : List (Int × Int)} {k : Int × Int} (h : k ∈ sortedKeys l) :
    k ∈ l := by
  rcases foldl_insertKey_mem l [] k h with h' | h'
  · exact absurd h' (List.not_mem_nil k)
  · exact h'

/-- The aggregated revenue keys are exactly the sorted distinct input keys. -/
lemma aggRevenue_keys (rows : List RevenueRecord) :
    (aggRevenue rows).map (fun a => (a.campid, a.hour)) =
      sortedKeys (rows.map fun r => (r.campid, r.hour)) := by
  unfold aggRevenue
  rw [List.map_map]
  exact List.map_id _

/-- The aggregated spend keys are exactly the sorted distinct input keys. -/
lemma aggSpend_keys (rows : List CleanedSpend) :
    (aggSpend rows).map (fun s => (s.campid, s.hour)) =
      sortedKeys (rows.map fun r => (r.campid, r.hour)) := by
  unfold aggSpend
  rw [List.map_map]
  exact List.map_id _

/-- Aggregated revenue keys are strictly sorted. -/
lemma aggRevenue_keys_pairwise (rows : List RevenueRecord) :
    ((aggRevenue rows).map fun a => (a.campid, a.hour)).Pairwise keyLt := by
  rw [aggRevenue_keys]
  exact sortedKeys_pairwise _

/-- Aggregated spend keys are strictly sorted. -/
lemma aggSpend_keys_pairwise (rows : List CleanedSpend) :
    ((aggSpend rows).map fun s => (s.campid, s.hour)).Pairwise keyLt := by
  rw [aggSpend_keys]
  exact sortedKeys_pairwise _

/-- A list with at most one element is vacuously pairwise-related. -/
lemma pairwise_of_len_le_one {a : Type} {R : a → a → Prop} {l : List a}
    (h : l.length ≤ 1) : l.Pairwise R := by
  cases l with
  | nil => exact List.Pairwise.nil
  | cons x rest =>
    cases rest with
    | nil => simp
    | cons y r2 => simp at h

/-- In a table with strictly sorted keys, at most one row matches any
given (campid, hour). -/
lemma filter_key_len_le_one {sp : List CleanedSpend}
    (hsp : (sp.map fun s => (s.campid, s.hour)).Pairwise keyLt) (c h : Int) :
    (sp.filter fun s => s.campid = c ∧ s.hour = h).length ≤ 1 := by
  induction sp with
  | nil => simp
  | cons s rest ih =>
    rw [List.map_cons, List.pairwise_cons] at hsp
    obtain ⟨hhead, hrest⟩ := hsp
    rw [List.filter_cons]
    by_cases hs : s.campid = c ∧ s.hour = h
    · have hnil : rest.filter (fun t => decide (t.campid = c ∧ t.hour = h)) = [] := by
        rw [List.filter_eq_nil_iff]
        intro t ht
        simp only [decide_eq_true_eq]
        intro htk
        have hlt := hhead (t.campid, t.hour) (List.mem_map_of_mem _ ht)
        rw [hs.1, hs.2, htk.1, htk.2] at hlt
        exact keyLt_irrefl _ hlt
      have hps : (decide (s.campid = c ∧ s.hour = h)) = true := by
        simp only [decide_eq_true_eq]; exact hs
      rw [hps, if_pos rfl, hnil]
      simp
    · have hps : (decide (s.campid = c ∧ s.hour = h)) = false := by
        simp only [decide_eq_false_iff_not]; exact hs
      rw [hps, if_neg (by simp)]
      exact ih hrest

/-- Every merged row carries the key of a left (revenue) row. -/
lemma mergeInner_key_sub {rev : List AggRevenue} {sp : List CleanedSpend} {m : MergedRow}
    (hm : m ∈ mergeInner rev sp) : ∃ a ∈ rev, m.campid = a.campid ∧ m.hour = a.hour := by
  unfold mergeInner at hm
  obtain ⟨r, hr, hm'⟩ := List.mem_flatMap.mp hm
  obtain ⟨s, _, rfl⟩ := List.mem_map.mp hm'
  exact ⟨r, hr, rfl, rfl⟩

/-- Every merged row carries the key of a right (spend) row. -/
lemma mergeInner_key_sub_right {rev : List AggRevenue} {sp : List CleanedSpend} {m : MergedRow}
    (hm : m ∈ mergeInner rev sp) : ∃ s ∈ sp, m.campid = s.campid ∧ m.hour = s.hour := by
  unfold mergeInner at hm
  obtain ⟨r, _, hm'⟩ := List.mem_flatMap.mp hm
  obtain ⟨s, hsf, rfl⟩ := List.mem_map.mp hm'
  obtain ⟨hs, hpred⟩ := List.mem_filter.mp hsf
  simp only [decide_eq_true_eq] at hpred
  exact ⟨s, hs, hpred.1.symm, hpred.2.symm⟩

/-- The inner merge of two strictly key-sorted tables is strictly
key-sorted (in particular its keys are distinct). -/
lemma mergeInner_keys_pairwise {rev : List AggRevenue} {sp : List CleanedSpend}
    (hrev : (rev.map fun a => (a.campid, a.hour)).Pairwise keyLt)
    (hsp : (sp.map fun s => (s.campid, s.hour)).Pairwise keyLt) :
    ((mergeInner rev sp).map fun m => (m.campid, m.hour)).Pairwise keyLt := by
  induction rev with
  | nil => simp [mergeInner]
  | cons r rest ih =>
    rw [List.map_cons, List.pairwise_cons] at hrev
    obtain ⟨hhead, hrest⟩ := hrev
    have hsplit : mergeInner (r :: rest) sp =
        ((sp.filter fun s => s.campid = r.campid ∧ s.hour = r.hour).map fun s =>
          { campid := r.campid, hour := r.hour
            estimated_earnings := r.estimated_earnings, total_clicks := r.total_clicks
            hourly_spend := s.hourly_spend, hourly_results := s.hourly_results }) ++
        mergeInner rest sp := rfl
    rw [hsplit, List.map_append, List.pairwise_append]
    refine ⟨?_, ih hrest, ?_⟩
    · exact List.pairwise_map.mpr (List.pairwise_map.mpr
        (pairwise_of_len_le_one (filter_key_len_le_one hsp r.campid r.hour)))
    · intro x hx y hy
      obtain ⟨mx, hmx, rfl⟩ := List.mem_map.mp hx
      obtain ⟨sx, _, rfl⟩ := List.mem_map.mp hmx
      obtain ⟨my, hmy, rfl⟩ := List.mem_map.mp hy
      obtain ⟨ay, hay, hc, hh⟩ := mergeInner_key_sub hmy
      have := hhead (ay.campid, ay.hour) (List.mem_map_of_mem _ hay)
      simpa [hc, hh] using this

/-- Elements produced by dedupAux come from its input list. -/
lemma dedupAux_subset {α : Type} [DecidableEq α] :
    ∀ (seen l : List α) (x : α), x ∈ dedupAux seen l → x ∈ l := by
  intro seen l
  induction l generalizing seen with
  | nil => intro x h; exact absurd h (List.not_mem_nil x)
  | cons a rest ih =>
    intro x h
    unfold dedupAux at h
    by_cases ha : a ∈ seen
    · rw [if_pos ha] at h
      exact List.mem_cons_of_mem _ (ih seen x h)
    · rw [if_neg ha] at h
      rcases List.mem_cons.mp h with rfl | h'
      · exact List.mem_cons_self _ _
      · exact List.mem_cons_of_mem _ (ih (a :: seen) x h')

/-- dedupAux never emits an element of `seen`. -/
lemma dedupAux_not_mem_seen {α : Type} [DecidableEq α] :
    ∀ (seen l : List α) (x : α), x ∈ dedupAux seen l → x ∉ seen := by
  intro seen l
  induction l generalizing seen with
  | nil => intro x h; exact absurd h (List.not_mem_nil x)
  | cons a rest ih =>
    intro x h
    unfold dedupAux at h
    by_cases ha : a ∈ seen
    · rw [if_pos ha] at h
      exact ih seen x h
    · rw [if_neg ha] at h
      rcases List.mem_cons.mp h with rfl | h'
      · exact ha
      · intro hx
        exact ih (a :: seen) x h' (List.mem_cons_of_mem _ hx)

/-- dedupAux output has no duplicates. -/
lemma dedupAux_nodup {α : Type} [DecidableEq α] :
    ∀ (seen l : List α), (dedupAux seen l).Nodup := by
  intro seen l
  induction l generalizing seen with
  | nil => exact List.nodup_nil
  | cons a rest ih =>
    unfold dedupAux
    by_cases ha : a ∈ seen
    · rw [if_pos ha]
      exact ih seen
    · rw [if_neg ha]
      refine List.nodup_cons.mpr ⟨?_, ih (a :: seen)⟩
      intro hmem
      exact dedupAux_not_mem_seen (a :: seen) rest a hmem (List.mem_cons_self _ _)

/-- dedupAux keeps (one copy of) every fresh element. -/
lemma dedupAux_mem_of_mem {α : Type} [DecidableEq α] :
    ∀ (seen l : List α) (a : α), a ∈ l → a ∉ seen → a ∈ dedupAux seen l := by
  intro seen l
  induction l generalizing seen with
  | nil => intro a h; exact absurd h (List.not_mem_nil a)
  | cons b rest ih =>
    intro a h hns
    unfold dedupAux
    by_cases hb : b ∈ seen
    · rw [if_pos hb]
      rcases List.mem_cons.mp h with rfl | h'
      · exact absurd hb hns
      · exact ih seen a h' hns
    · rw [if_neg hb]
      rcases List.mem_cons.mp h with rfl | h'
      · exact List.mem_cons_self _ _
      · by_cases hab : a = b
        · subst hab; exact List.mem_cons_self _ _
        · exact List.mem_cons_of_mem _
            (ih (b :: seen) a h' (by simp [hab, hns]))

/-- Under a one-name-per-campaign-id input, the campaign-name lookup
has at most one entry per campid. -/
lemma mapping_filter_len_le_one {spend : List SpendRecord}
    (H : ∀ r1 ∈ spend, ∀ r2 ∈ spend, ∀ n : Nat,
      extractCampid r1 = some n → extractCampid r2 = some n →
      r1.ad_set_name = r2.ad_set_name) (c : Int) :
    ((nameMapping spend).filter fun p => p.1 = some c).length ≤ 1 := by
  have hall : ∀ p ∈ nameMapping spend, ∀ q ∈ nameMapping spend,
      p.1 = some c → q.1 = some c → p = q := by
    intro p hp q hq hpc hqc
    obtain ⟨r1, hr1, rfl⟩ := List.mem_map.mp (dedupAux_subset _ _ _ hp)
    obtain ⟨r2, hr2, rfl⟩ := List.mem_map.mp (dedupAux_subset _ _ _ hq)
    obtain ⟨n1, hn1, hc1⟩ := Option.map_eq_some'.mp hpc
    obtain ⟨n2, hn2, hc2⟩ := Option.map_eq_some'.mp hqc
    have hnn : n1 = n2 := by
      have h12 : Int.ofNat n1 = Int.ofNat n2 := hc1.trans hc2.symm
      exact Int.ofNat.inj h12
    subst hnn
    have hname := H r1 hr1 r2 hr2 n1 hn1 hn2
    simp [hn1, hn2, hname]
  have hnd : (nameMapping spend).Nodup := dedupAux_nodup _ _
  rcases hfl : (nameMapping spend).filter (fun p => decide (p.1 = some c)) with
    _ | ⟨a, _ | ⟨b, rest⟩⟩
  · rw [hfl]; simp
  · rw [hfl]; simp
  · exfalso
    have hsub : ∀ x ∈ a :: b :: rest, x ∈ nameMapping spend ∧ x.1 = some c := by
      intro x hx
      have := List.mem_filter.mp (hfl ▸ hx)
      exact ⟨this.1, by simpa using this.2⟩
    have hnd' : (a :: b :: rest).Nodup := hfl ▸ hnd.filter _
    have hab : a ≠ b := by
      have := List.nodup_cons.mp hnd'
      exact fun he => this.1 (he ▸ List.mem_cons_self _ _)
    obtain ⟨ha, hac⟩ := hsub a (List.mem_cons_self _ _)
    obtain ⟨hb, hbc⟩ := hsub b (List.mem_cons_of_mem _ (List.mem_cons_self _ _))
    exact hab (hall a ha b hb hac hbc)

/-- The name join, unfolded one merged row at a time. -/
lemma addNames_cons (r : MergedRow) (rest : List MergedRow)
    (mapping : List (Option Int × String)) :
    addNames (r :: rest) mapping =
      (if (mapping.filter fun p => p.1 = some r.campid).isEmpty then
        [{ campid := r.campid, hour := r.hour
           estimated_earnings := r.estimated_earnings, total_clicks := r.total_clicks
           hourly_spend := r.hourly_spend, hourly_results := r.hourly_results
           campaign_name := none }]
      else
        (mapping.filter fun p => p.1 = some r.campid).map fun p =>
          { campid := r.campid, hour := r.hour
            estimated_earnings := r.estimated_earnings, total_clicks := r.total_clicks
            hourly_spend := r.hourly_spend, hourly_results := r.hourly_results
            campaign_name := some p.2 }) ++ addNames rest mapping := rfl

/-- With at most one mapping entry per campid, the name join keeps
exactly the merged keys, in order. -/
lemma addNames_keys_of_unique {rows : List MergedRow} {mapping : List (Option Int × String)}
    (hmap : ∀ c : Int, (mapping.filter fun p => p.1 = some c).length ≤ 1) :
    (addNames rows mapping).map (fun n => (n.campid, n.hour)) =
      rows.map fun m => (m.campid, m.hour) := by
  induction rows with
  | nil => rfl
  | cons r rest ih =>
    rw [addNames_cons, List.map_append, ih, List.map_cons]
    rcases hms : mapping.filter (fun p => decide (p.1 = some r.campid)) with _ | ⟨p, ps⟩
    · rw [hms]
      simp
    · have hlen := hmap r.campid
      rw [hms] at hlen
      have hps : ps = [] := by
        cases ps with
        | nil => rfl
        | cons a b => simp at hlen
      subst hps
      rw [hms]
      simp

/-- Every named row carries the key of a merged row, and its name is
either NaN (campid absent from the lookup) or a mapping entry's. -/
lemma addNames_mem {rows : List MergedRow} {mapping : List (Option Int × String)}
    {n : NamedRow} (hn : n ∈ addNames rows mapping) :
    ∃ m ∈ rows, n.campid = m.campid ∧ n.hour = m.hour ∧
      (((mapping.filter fun p => p.1 = some m.campid) = [] ∧ n.campaign_name = none) ∨
        ∃ p ∈ mapping, p.1 = some m.campid ∧ n.campaign_name = some p.2) := by
  unfold addNames at hn
  obtain ⟨m, hm, hn'⟩ := List.mem_flatMap.mp hn
  refine ⟨m, hm, ?_⟩
  rcases hms : mapping.filter (fun p => decide (p.1 = some m.campid)) with _ | ⟨p, ps⟩
  · simp only [hms, List.isEmpty_nil, if_true] at hn'
    rcases List.mem_singleton.mp hn' with rfl
    exact ⟨rfl, rfl, Or.inl ⟨hms, rfl⟩⟩
  · simp only [hms, List.isEmpty_cons, if_false, Bool.false_eq_true] at hn'
    obtain ⟨q, hq, rfl⟩ := List.mem_map.mp hn'
    have hq' := List.mem_filter.mp (hms ▸ hq)
    exact ⟨rfl, rfl, Or.inr ⟨q, hq'.1, by simpa using hq'.2, rfl⟩⟩

/-- The name join emits at least one row per merged row, with its key. -/
lemma addNames_mem_of_key {rows : List MergedRow} {mapping : List (Option Int × String)}
    {m : MergedRow} (hm : m ∈ rows) :
    ∃ n ∈ addNames rows mapping, n.campid = m.campid ∧ n.hour = m.hour := by
  rcases hms : mapping.filter (fun p => decide (p.1 = some m.campid)) with _ | ⟨p, ps⟩
  · refine ⟨(⟨m.campid, m.hour, m.estimated_earnings, m.total_clicks,
        m.hourly_spend, m.hourly_results, none⟩ : NamedRow),
      List.mem_flatMap.mpr ⟨m, hm, ?_⟩, rfl, rfl⟩
    simp only [hms, List.isEmpty_nil, if_true]
    exact List.mem_singleton.mpr rfl
  · refine ⟨(⟨m.campid, m.hour, m.estimated_earnings, m.total_clicks,
        m.hourly_spend, m.hourly_results, some p.2⟩ : NamedRow),
      List.mem_flatMap.mpr ⟨m, hm, ?_⟩, rfl, rfl⟩
    simp only [hms, List.isEmpty_cons, if_false, Bool.false_eq_true]
    exact List.mem_map_of_mem _ (List.mem_cons_self p ps)

/-- The finished pipeline's key column equals the named table's key
column: differencing and metric derivation keep keys and order. -/
lemma pipeline_keys (revenue : List RevenueRecord) (spend : List SpendRecord)
    (cleaned : List CleanedSpend) :
    (pipelineFromCleaned revenue spend cleaned).map (fun f => (f.campid, f.hour)) =
      (addNames
        (mergeInner (aggRevenue (revenueFiltered revenue cleaned)) (aggSpend cleaned))
        (nameMapping spend)).map fun n => (n.campid, n.hour) := by
  unfold pipelineFromCleaned
  rw [List.map_map]
  have h1 : ((fun f : FinalRow => (f.campid, f.hour)) ∘ fun t : NamedRow × ℚ × ℚ =>
      deriveRow t.1 t.2.1 t.2.2) =
      ((fun n : NamedRow => (n.campid, n.hour)) ∘ Prod.fst) := rfl
  rw [h1, ← List.map_map, diffRows_fst]

/-- C1 (amended): when no two raw spend rows with different ad-set-name
strings embed the same campaign id, every pair of output rows has
distinct (campaign_id, hour); without that proviso the name join can
replicate a key once per distinct name. -/
theorem C1_key_uniqueness :
    ∀ (revenue : List RevenueRecord) (spend : List SpendRecord) (out : List FinalRow),
      pipeline revenue spend = some out →
      (∀ r1 ∈ spend, ∀ r2 ∈ spend, ∀ n : Nat,
        extractCampid r1 = some n → extractCampid r2 = some n →
        r1.ad_set_name = r2.ad_set_name) →
      out.Pairwise fun a b => ¬(a.campid = b.campid ∧ a.hour = b.hour) := by
  intro revenue spend out hp H
  unfold pipeline at hp
  obtain ⟨cleaned, _, rfl⟩ := Option.map_eq_some'.mp hp
  have hkeys : ((pipelineFromCleaned revenue spend cleaned).map
      fun f => (f.campid, f.hour)).Pairwise keyLt := by
    rw [pipeline_keys revenue spend cleaned,
      addNames_keys_of_unique (mapping_filter_len_le_one H)]
    exact mergeInner_keys_pairwise (aggRevenue_keys_pairwise _) (aggSpend_keys_pairwise _)
  rw [List.pairwise_map] at hkeys
  refine hkeys.imp ?_
  intro a b hlt hab
  have : (a.campid, a.hour) = (b.campid, b.hour) := by rw [hab.1, hab.2]
  rw [this] at hlt
  exact keyLt_irrefl _ hlt

/-- C1 witness: key uniqueness on the end-to-end scenario run. -/
theorem C1_witness :
    outC8.Pairwise fun a b => ¬(a.campid = b.campid ∧ a.hour = b.hour) :=
  C1_key_uniqueness revC8 spendC8 outC8 pipeline_c8_eval (by decide)

/-- The inner merge has a row for a key iff both sides do. -/
lemma mergeInner_hasKey {rev : List AggRevenue} {sp : List CleanedSpend} {c h : Int} :
    (∃ m ∈ mergeInner rev sp, m.campid = c ∧ m.hour = h) ↔
      ((∃ a ∈ rev, a.campid = c ∧ a.hour = h) ∧ (∃ s ∈ sp, s.campid = c ∧ s.hour = h)) := by
  constructor
  · rintro ⟨m, hm, hc, hh⟩
    obtain ⟨a, ha, hac, hah⟩ := mergeInner_key_sub hm
    obtain ⟨s, hs, hsc, hsh⟩ := mergeInner_key_sub_right hm
    exact ⟨⟨a, ha, hac.symm.trans hc, hah.symm.trans hh⟩,
      ⟨s, hs, hsc.symm.trans hc, hsh.symm.trans hh⟩⟩
  · rintro ⟨⟨a, ha, hac, hah⟩, ⟨s, hs, hsc, hsh⟩⟩
    refine ⟨⟨a.campid, a.hour, a.estimated_earnings, a.total_clicks,
        s.hourly_spend, s.hourly_results⟩,
      List.mem_flatMap.mpr ⟨a, ha, ?_⟩, hac, hah⟩
    refine List.mem_map.mpr ⟨s, List.mem_filter.mpr ⟨hs, ?_⟩, rfl⟩
    simp only [decide_eq_true_eq]
    exact ⟨hsc.trans hac.symm, hsh.trans hah.symm⟩

/-- C5: the output has a row for (c, h) iff both the aggregated
(pre-filtered) revenue table and the aggregated cleaned spend table
have a row for (c, h). -/
theorem C5_inner_join :
    ∀ (revenue : List RevenueRecord) (spend : List SpendRecord) (cleaned : List CleanedSpend)
      (out : List FinalRow) (c h : Int),
      spendClean spend = some cleaned → pipeline revenue spend = some out →
      ((∃ row ∈ out, row.campid = c ∧ row.hour = h) ↔
        ((∃ a ∈ aggRevenue (revenueFiltered revenue cleaned), a.campid = c ∧ a.hour = h)
          ∧ (∃ s ∈ aggSpend cleaned, s.campid = c ∧ s.hour = h))) := by
  intro revenue spend cleaned out c h hcl hp
  unfold pipeline at hp
  rw [hcl, Option.map_some'] at hp
  obtain rfl : pipelineFromCleaned revenue spend cleaned = out := Option.some.inj hp
  have hfin : (∃ row ∈ pipelineFromCleaned revenue spend cleaned,
      row.campid = c ∧ row.hour = h) ↔
      (c, h) ∈ ((pipelineFromCleaned revenue spend cleaned).map fun f => (f.campid, f.hour)) := by
    rw [List.mem_map]
    constructor
    · rintro ⟨f, hf, h1, h2⟩
      exact ⟨f, hf, by rw [h1, h2]⟩
    · rintro ⟨f, hf, heq⟩
      exact ⟨f, hf, congrArg Prod.fst heq, congrArg Prod.snd heq⟩
  have hnamed : ((c, h) ∈ ((addNames
      (mergeInner (aggRevenue (revenueFiltered revenue cleaned)) (aggSpend cleaned))
      (nameMapping spend)).map fun n => (n.campid, n.hour))) ↔
      (∃ n ∈ addNames
        (mergeInner (aggRevenue (revenueFiltered revenue cleaned)) (aggSpend cleaned))
        (nameMapping spend), n.campid = c ∧ n.hour = h) := by
    rw [List.mem_map]
    constructor
    · rintro ⟨n, hn, heq⟩
      exact ⟨n, hn, congrArg Prod.fst heq, congrArg Prod.snd heq⟩
    · rintro ⟨n, hn, h1, h2⟩
      exact ⟨n, hn, by rw [h1, h2]⟩
  rw [hfin, pipeline_keys, hnamed]
  constructor
  · rintro ⟨n, hn, hc, hh⟩
    obtain ⟨m, hm, hmc, hmh, _⟩ := addNames_mem hn
    exact mergeInner_hasKey.mp ⟨m, hm, hmc.symm.trans hc, hmh.symm.trans hh⟩
  · intro hboth
    obtain ⟨m, hm, hmc, hmh⟩ := mergeInner_hasKey.mpr hboth
    obtain ⟨n, hn, hnc, hnh⟩ := addNames_mem_of_key hm
    exact ⟨n, hn, hnc.trans hmc, hnh.trans hmh⟩

/-- C5 witness: the inner-join property on the end-to-end run at key
(12345, 10). -/
theorem C5_witness :
    (∃ row ∈ outC8, row.campid = 12345 ∧ row.hour = 10) ↔
      ((∃ a ∈ aggRevenue (revenueFiltered revC8 cleanedC8), a.campid = 12345 ∧ a.hour = 10)
        ∧ (∃ s ∈ aggSpend cleanedC8, s.campid = 12345 ∧ s.hour = 10)) :=
  C5_inner_join revC8 spendC8 cleanedC8 outC8 12345 10 spendClean_c8 pipeline_c8_eval

/-- Every aggregated spend row carries the key of an input row. -/
lemma aggSpend_key_sub {rows : List CleanedSpend} {s : CleanedSpend}
    (hs : s ∈ aggSpend rows) : ∃ t ∈ rows, s.campid = t.campid ∧ s.hour = t.hour := by
  unfold aggSpend at hs
  obtain ⟨k, hk, rfl⟩ := List.mem_map.mp hs
  obtain ⟨t, ht, hkey⟩ := List.mem_map.mp (sortedKeys_subset hk)
  exact ⟨t, ht, (congrArg Prod.fst hkey).symm, (congrArg Prod.snd hkey).symm⟩

/-- Every cleaned row's campid is a parsed ad-set-name integer. -/
lemma cleaned_campid_parsed {spend : List SpendRecord} {cleaned : List CleanedSpend}
    (hcl : spendClean spend = some cleaned) :
    ∀ cs ∈ cleaned, ∃ r ∈ spend, ∃ n : Nat,
      extractCampid r = some n ∧ cs.campid = Int.ofNat n := by
  obtain ⟨rfl, _⟩ := spendClean_eq_some hcl
  intro cs hcs
  obtain ⟨r, hr, hrc⟩ := List.mem_filterMap.mp hcs
  obtain ⟨cn, hn, h1, _, _, _, h5, _⟩ := rowClean_eq_some.mp hrc
  exact ⟨r, hr, cn, h1, h5⟩

/-- Every merged row's campid is a parsed ad-set-name integer. -/
lemma merged_campid_parsed {revenue : List RevenueRecord} {spend : List SpendRecord}
    {cleaned : List CleanedSpend} {m : MergedRow}
    (hcl : spendClean spend = some cleaned)
    (hm : m ∈ mergeInner (aggRevenue (revenueFiltered revenue cleaned)) (aggSpend cleaned)) :
    ∃ r ∈ spend, ∃ n : Nat, extractCampid r = some n ∧ m.campid = Int.ofNat n := by
  obtain ⟨s, hs, hsc, _⟩ := mergeInner_key_sub_right hm
  obtain ⟨t, ht, htc, _⟩ := aggSpend_key_sub hs
  obtain ⟨r, hr, n, hn, hcamp⟩ := cleaned_campid_parsed hcl t ht
  exact ⟨r, hr, n, hn, by rw [hsc, htc, hcamp]⟩

/-- A spend row with a parsed campid yields a campaign-name lookup
entry. -/
lemma mapping_entry_exists {spend : List SpendRecord} {r : SpendRecord} {n : Nat}
    (hr : r ∈ spend) (hn : extractCampid r = some n) :
    (some (Int.ofNat n), r.ad_set_name) ∈ nameMapping spend := by
  have hmem : (some (Int.ofNat n), r.ad_set_name) ∈
      spend.map (fun x => ((extractCampid x).map Int.ofNat, x.ad_set_name)) := by
    refine List.mem_map.mpr ⟨r, hr, ?_⟩
    rw [hn]
    rfl
  exact dedupAux_mem_of_mem [] _ _ hmem (List.not_mem_nil _)

/-- C7 (amended): every output row's campaign_name is the ad-set-name
of a raw spend row embedding that campaign id (never NaN); when every
campaign id is embedded by a single distinct ad-set-name, the name per
campaign id is unique across the output — without that proviso the
lookup keeps one entry per distinct (campid, name) pair, replicating
rows. -/
theorem C7_names :
    ∀ (revenue : List RevenueRecord) (spend : List SpendRecord) (out : List FinalRow),
      pipeline revenue spend = some out →
      (∀ row ∈ out, ∃ r ∈ spend, ∃ n : Nat, extractCampid r = some n ∧
        row.campid = Int.ofNat n ∧ row.campaign_name = some r.ad_set_name)
      ∧ ((∀ r1 ∈ spend, ∀ r2 ∈ spend, ∀ n : Nat, extractCampid r1 = some n →
          extractCampid r2 = some n → r1.ad_set_name = r2.ad_set_name) →
        ∀ row1 ∈ out, ∀ row2 ∈ out, row1.campid = row2.campid →
          row1.campaign_name = row2.campaign_name) := by
  intro revenue spend out hp
  have hmain : ∀ row ∈ out, ∃ r ∈ spend, ∃ n : Nat, extractCampid r = some n ∧
      row.campid = Int.ofNat n ∧ row.campaign_name = some r.ad_set_name := by
    unfold pipeline at hp
    obtain ⟨cleaned, hcl, rfl⟩ := Option.map_eq_some'.mp hp
    intro row hrow
    unfold pipelineFromCleaned at hrow
    obtain ⟨t, ht, rfl⟩ := List.mem_map.mp hrow
    have ht1 : t.1 ∈ addNames
        (mergeInner (aggRevenue (revenueFiltered revenue cleaned)) (aggSpend cleaned))
        (nameMapping spend) := by
      rw [← diffRows_fst []
        (addNames (mergeInner (aggRevenue (revenueFiltered revenue cleaned)) (aggSpend cleaned))
          (nameMapping spend))]
      exact List.mem_map_of_mem _ ht
    obtain ⟨m, hm, hmc, hmh, hname⟩ := addNames_mem ht1
    obtain ⟨r0, hr0, n0, hn0, hm0⟩ := merged_campid_parsed hcl hm
    rcases hname with ⟨hempty, _⟩ | ⟨p, hpmem, hp1, hpn⟩
    · exfalso
      have hpm := mapping_entry_exists hr0 hn0
      have hfail := List.filter_eq_nil_iff.mp hempty _ hpm
      simp only [decide_eq_true_eq] at hfail
      exact hfail (by rw [← hm0])
    · obtain ⟨r2, hr2, hpr2⟩ := List.mem_map.mp (dedupAux_subset _ _ _ hpmem)
      have hp1' : (extractCampid r2).map Int.ofNat = some m.campid := by
        rw [← hp1, ← hpr2]
      obtain ⟨n2, hn2, hc2⟩ := Option.map_eq_some'.mp hp1'
      refine ⟨r2, hr2, n2, hn2, ?_, ?_⟩
      · show t.1.campid = Int.ofNat n2
        rw [hmc, ← hc2]
      · show t.1.campaign_name = some r2.ad_set_name
        rw [hpn, ← hpr2]
  refine ⟨hmain, fun H row1 h1 row2 h2 hc => ?_⟩
  obtain ⟨r1, hr1, n1, hn1, hcamp1, hname1⟩ := hmain row1 h1
  obtain ⟨r2, hr2, n2, hn2, hcamp2, hname2⟩ := hmain row2 h2
  have hnn : n1 = n2 := Int.ofNat.inj (by rw [← hcamp1, ← hcamp2, hc])
  subst hnn
  rw [hname1, hname2, H r1 hr1 r2 hr2 n1 hn1 hn2]

/-- C7 witness: the first end-to-end output row's campaign_name comes
from a spend row embedding campaign id 12345. -/
theorem C7_witness :
    ∃ r ∈ spendC8, ∃ n : Nat, extractCampid r = some n ∧
      (Int.ofNat 12345 : Int) = Int.ofNat n ∧
      (some "Set (12345)" : Option String) = some r.ad_set_name :=
  (C7_names revC8 spendC8 outC8 pipeline_c8_eval).1
    ⟨12345, some "Set (12345)", 10, 50, 5, 500, 10, 500, 10, 10, 50, 450, 900, "Profit"⟩
    (by unfold outC8; exact List.mem_cons_self _ _)

/-- The diff partner search fails exactly when no earlier row shares
the campaign. -/
lemma prevSame_eq_none_iff {c : Int} {l : List NamedRow} :
    prevSame c l = none ↔ ∀ p ∈ l, p.campid ≠ c := by
  induction l with
  | nil => simp [prevSame]
  | cons r rs ih =>
    unfold prevSame
    by_cases h : r.campid = c
    · rw [if_pos h]
      constructor
      · intro hx; simp at hx
      · intro hall; exact absurd h (hall r (List.mem_cons_self _ _))
    · rw [if_neg h, ih]
      constructor
      · intro hall p hp
        rcases List.mem_cons.mp hp with rfl | hp'
        · exact h
        · exact hall p hp'
      · intro hall p hp
        exact hall p (List.mem_cons_of_mem _ hp)

/-- A successful diff partner search returns the first matching row:
everything before it in the searched list misses the campaign. -/
lemma prevSame_eq_some {c : Int} {l : List NamedRow} {q : NamedRow}
    (h : prevSame c l = some q) :
    q.campid = c ∧ ∃ l1 l2, l = l1 ++ q :: l2 ∧ ∀ p ∈ l1, p.campid ≠ c := by
  induction l with
  | nil => simp [prevSame] at h
  | cons r rs ih =>
    unfold prevSame at h
    by_cases hr : r.campid = c
    · rw [if_pos hr] at h
      obtain rfl := Option.some.inj h
      exact ⟨hr, [], rs, rfl, by simp⟩
    · rw [if_neg hr] at h
      obtain ⟨hqc, l1, l2, heq, hl1⟩ := ih h
      refine ⟨hqc, r :: l1, l2, by rw [heq]; rfl, ?_⟩
      intro p hp
      rcases List.mem_cons.mp hp with rfl | hp'
      · exact hr
      · exact hl1 p hp'

/-- In a strictly key-sorted table, the diff partner of a row (searched
through the reversed prefix) is exactly the same campaign's next-lower
hour row: it has a smaller hour, and no same-campaign row of the whole
table lies strictly between them; when the search fails, no
same-campaign row has a smaller hour at all. -/
lemma prevSame_spec (pre post : List NamedRow) (r : NamedRow)
    (hs : ((pre ++ r :: post).map fun n => (n.campid, n.hour)).Pairwise keyLt) :
    (prevSame r.campid pre.reverse = none →
      ∀ p ∈ pre ++ r :: post, p.campid = r.campid → ¬ p.hour < r.hour)
    ∧ ∀ q, prevSame r.campid pre.reverse = some q →
        q ∈ pre ∧ q.campid = r.campid ∧ q.hour < r.hour ∧
        ∀ p ∈ pre ++ r :: post, p.campid = r.campid → p.hour < r.hour → p.hour ≤ q.hour := by
  rw [List.map_append, List.map_cons, List.pairwise_append] at hs
  obtain ⟨hpre, hrpost, hcross⟩ := hs
  obtain ⟨hrhead, _⟩ := List.pairwise_cons.mp hrpost
  constructor
  · intro hnone p hp hpc
    rw [prevSame_eq_none_iff] at hnone
    rcases List.mem_append.mp hp with hp' | hp'
    · exact absurd hpc (hnone p (List.mem_reverse.mpr hp'))
    · rcases List.mem_cons.mp hp' with rfl | hp''
      · exact lt_irrefl _
      · have hk := hrhead (p.campid, p.hour) (List.mem_map_of_mem _ hp'')
        simp only [keyLt] at hk
        omega
  · intro q hq
    obtain ⟨hqc, l1, l2, heqrev, hl1⟩ := prevSame_eq_some hq
    have hpre_eq : pre = l2.reverse ++ q :: l1.reverse := by
      calc pre = pre.reverse.reverse := (List.reverse_reverse pre).symm
        _ = (l1 ++ q :: l2).reverse := by rw [heqrev]
        _ = l2.reverse ++ q :: l1.reverse := by
            rw [List.reverse_append, List.reverse_cons, List.append_assoc]
            rfl
    have hqpre : q ∈ pre := by
      rw [hpre_eq]
      exact List.mem_append.mpr (Or.inr (List.mem_cons_self _ _))
    have hqr := hcross (q.campid, q.hour) (List.mem_map_of_mem _ hqpre)
      (r.campid, r.hour) (List.mem_cons_self _ _)
    simp only [keyLt] at hqr
    have hqhour : q.hour < r.hour := by omega
    refine ⟨hqpre, hqc, hqhour, ?_⟩
    intro p hp hpc hplt
    rcases List.mem_append.mp hp with hp' | hp'
    · rw [hpre_eq] at hp'
      rcases List.mem_append.mp hp' with hp2 | hp2
      · have hpre2 := hpre
        rw [hpre_eq, List.map_append, List.map_cons, List.pairwise_append] at hpre2
        obtain ⟨_, _, hcross2⟩ := hpre2
        have hk := hcross2 (p.campid, p.hour) (List.mem_map_of_mem _ hp2)
          (q.campid, q.hour) (List.mem_cons_self _ _)
        simp only [keyLt] at hk
        omega
      · rcases List.mem_cons.mp hp2 with rfl | hp3
        · exact le_refl _
        · exact absurd hpc (hl1 p (List.mem_reverse.mp hp3))
    · rcases List.mem_cons.mp hp' with rfl | hp''
      · exact absurd hplt (lt_irrefl _)
      · have hk := hrhead (p.campid, p.hour) (List.mem_map_of_mem _ hp'')
        simp only [keyLt] at hk
        omega

/-- C9 (amended): the aggregation/inner-merge output is sorted by
(campaign_id, hour) ascending; when every campaign id carries a single
distinct ad-set name the name join preserves that order; and on any
key-sorted table the differencing delta of each row subtracts exactly
the same campaign's next-lower hour row (no same-campaign row lies
between), first-in-campaign rows subtracting nothing.  Without the
single-name proviso the name join replicates keys and this fails. -/
theorem C9_sorted_diff :
    (∀ (revenue : List RevenueRecord) (cleaned : List CleanedSpend),
      ((mergeInner (aggRevenue (revenueFiltered revenue cleaned)) (aggSpend cleaned)).map
        fun m => (m.campid, m.hour)).Pairwise keyLt)
    ∧ (∀ (revenue : List RevenueRecord) (spend : List SpendRecord)
        (cleaned : List CleanedSpend),
        (∀ r1 ∈ spend, ∀ r2 ∈ spend, ∀ n : Nat, extractCampid r1 = some n →
          extractCampid r2 = some n → r1.ad_set_name = r2.ad_set_name) →
        ((addNames (mergeInner (aggRevenue (revenueFiltered revenue cleaned))
            (aggSpend cleaned)) (nameMapping spend)).map
          fun n => (n.campid, n.hour)).Pairwise keyLt)
    ∧ (∀ (named : List NamedRow) (i : Nat) (hi : i < named.length)
        (hi' : i < (diffRows [] named).length),
        ((diffRows [] named).get ⟨i, hi'⟩).2.1 =
          hrevOf (prevSame (named.get ⟨i, hi⟩).campid (named.take i).reverse)
            (named.get ⟨i, hi⟩))
    ∧ ∀ (named : List NamedRow),
        ((named.map fun n => (n.campid, n.hour)).Pairwise keyLt) →
        ∀ (i : Nat) (hi : i < named.length),
          (prevSame (named.get ⟨i, hi⟩).campid ((named.take i).reverse) = none →
            ∀ p ∈ named, p.campid = (named.get ⟨i, hi⟩).campid →
              ¬ p.hour < (named.get ⟨i, hi⟩).hour)
          ∧ ∀ q, prevSame (named.get ⟨i, hi⟩).campid ((named.take i).reverse) = some q →
              q ∈ named ∧ q.campid = (named.get ⟨i, hi⟩).campid ∧
              q.hour < (named.get ⟨i, hi⟩).hour ∧
              ∀ p ∈ named, p.campid = (named.get ⟨i, hi⟩).campid →
                p.hour < (named.get ⟨i, hi⟩).hour → p.hour ≤ q.hour := by
  refine ⟨?_, ?_, ?_, ?_⟩
  · intro revenue cleaned
    exact mergeInner_keys_pairwise (aggRevenue_keys_pairwise _) (aggSpend_keys_pairwise _)
  · intro revenue spend cleaned H
    rw [addNames_keys_of_unique (mapping_filter_len_le_one H)]
    exact mergeInner_keys_pairwise (aggRevenue_keys_pairwise _) (aggSpend_keys_pairwise _)
  · intro named i hi hi'
    rw [diffRows_get named [] i hi hi']
    simp
  · intro named hsort i hi
    have hdecomp : named = named.take i ++ named.get ⟨i, hi⟩ :: named.drop (i + 1) := by
      rw [List.cons_get_drop_succ, List.take_append_drop]
    have hs2 : (((named.take i) ++ named.get ⟨i, hi⟩ :: named.drop (i + 1)).map
        fun n => (n.campid, n.hour)).Pairwise keyLt := by
      rw [← hdecomp]
      exact hsort
    obtain ⟨h1, h2⟩ := prevSame_spec (named.take i) (named.drop (i + 1))
      (named.get ⟨i, hi⟩) hs2
    refine ⟨fun hnone p hp hpc => h1 hnone p (by rw [← hdecomp]; exact hp) hpc,
      fun q hq => ?_⟩
    obtain ⟨hq1, hq2, hq3, hq4⟩ := h2 q hq
    exact ⟨List.take_subset _ _ hq1, hq2, hq3,
      fun p hp hpc hplt => hq4 p (by rw [← hdecomp]; exact hp) hpc hplt⟩

/-- C9 witness: on the end-to-end scenario's named table, the hour-11
row's diff partner is the hour-10 row of the same campaign, the
campaign's next-lower present hour. -/
theorem C9_witness :
    (⟨12345, 10, 500, 10, 50, 5, some "Set (12345)"⟩ : NamedRow) ∈ namedC8 ∧
    (12345 : Int) = 12345 ∧ (10 : Int) < 11 ∧ (10 : Int) ≤ 10 := by
  have h := (C9_sorted_diff.2.2.2 namedC8 (by decide) 1 (by decide)).2
    ⟨12345, 10, 500, 10, 50, 5, some "Set (12345)"⟩ (by decide)
  exact ⟨h.1, h.2.1, h.2.2.1,
    h.2.2.2 ⟨12345, 10, 500, 10, 50, 5, some "Set (12345)"⟩ h.1 h.2.1 h.2.2.1⟩

/-- C2 counterexample: a spend row whose ad-set name parses but whose
time-of-day label has no integer before a colon is not silently
dropped: the cleaning stage fails (the `astype(int)` coercion raises
on the unparsable hour), so the whole run produces no output. -/
theorem C2_counterexample :
    spendClean spendBad = none ∧
    spendBad.map extractCampid = [some 1] ∧
    pipeline revDup spendBad = none := by
  refine ⟨by decide, by decide, ?_⟩
  rw [pipeline]
  have h : spendClean spendBad = none := by decide
  rw [h, Option.map_none']

end FB
